import Mathlib

/-!
# Verification of the RPC messaging core and the LiveKit client adapter

Shallow embedding of `crates/rpc` (protocol constant, and the framing /
Peer dispatch layer described by the design document — the module files
`message_stream.rs`, `peer.rs`, `conn.rs` are declared in `rpc.rs` but their
bodies are not in the tree, so those parts are modelled from the spec) and
of `crates/live_kit_client/src/live_kit_client.rs` (embedded from source).
-/

/-- Embeds `pub const PROTOCOL_VERSION: u32 = 68;` from
`src/crates/rpc/src/rpc.rs` line 18. -/
def PROTOCOL_VERSION : Nat := 68

/-- Modelled from the spec: the closed payload tagged union of §3
("Payload — a closed tagged union: Request(kind, data), Response(kind, data),
Error(kind, message)"); the concrete schema is out of scope, so kinds are
numbers and data is raw bytes. -/
inductive Payload
  | request (kind : Nat) (data : List Nat)
  | response (kind : Nat) (data : List Nat)
  | error (kind : Nat) (message : List Nat)
deriving DecidableEq, Repr

/-- Modelled from the spec: the Envelope of §3 —
`{ version: u32, id: u32, responding_to: Option<u32>, payload }`.
The module `proto` holding the real struct is not under `src/`. -/
structure Envelope where
  version : Nat
  id : Nat
  responding_to : Option Nat
  payload : Payload
deriving DecidableEq, Repr

/-- Big-endian byte encoding of a u32 value (fixed-width, 4 bytes). -/
def encodeU32 (n : Nat) : List Nat :=
  [n / 16777216 % 256, n / 65536 % 256, n / 256 % 256, n % 256]

/-- Reads a fixed-width (4-byte) u32 from the front of a byte list,
returning the value and the remaining bytes. -/
def readU32 : List Nat → Option (Nat × List Nat)
  | b0 :: b1 :: b2 :: b3 :: rest =>
      some (((b0 * 256 + b1) * 256 + b2) * 256 + b3, rest)
  | _ => none

/-- Encoding of an optional u32: a presence tag byte, then the value. -/
def encodeOptU32 : Option Nat → List Nat
  | none => [0]
  | some n => 1 :: encodeU32 n

/-- Reads an optional u32 (presence tag byte, then the value). -/
def readOptU32 : List Nat → Option (Option Nat × List Nat)
  | 0 :: rest => some (none, rest)
  | 1 :: rest => (readU32 rest).map fun p => (some p.1, p.2)
  | _ => none

/-- Reads `n` raw bytes from the front of a byte list. -/
def readBytes (n : Nat) (l : List Nat) : Option (List Nat × List Nat) :=
  if n ≤ l.length then some (l.take n, l.drop n) else none

/-- Modelled from the spec: encoding of the payload union — a variant tag
byte, the kind, a length-prefixed byte blob (§4.1: "encoding is total"). -/
def encodePayload : Payload → List Nat
  | .request kind data => 0 :: (encodeU32 kind ++ encodeU32 data.length ++ data)
  | .response kind data => 1 :: (encodeU32 kind ++ encodeU32 data.length ++ data)
  | .error kind message => 2 :: (encodeU32 kind ++ encodeU32 message.length ++ message)

/-- Modelled from the spec: decoding of the payload union; fails
(`ProtocolError`) on an unknown variant tag or truncated input (§4.1). -/
def decodePayload : List Nat → Option (Payload × List Nat)
  | 0 :: rest => do
      let (kind, r1) ← readU32 rest
      let (len, r2) ← readU32 r1
      let (data, r3) ← readBytes len r2
      pure (.request kind data, r3)
  | 1 :: rest => do
      let (kind, r1) ← readU32 rest
      let (len, r2) ← readU32 r1
      let (data, r3) ← readBytes len r2
      pure (.response kind data, r3)
  | 2 :: rest => do
      let (kind, r1) ← readU32 rest
      let (len, r2) ← readU32 r1
      let (data, r3) ← readBytes len r2
      pure (.error kind data, r3)
  | _ => none

/-- Modelled from the spec: byte encoding of one Envelope (§6 logical
fields in order: version, id, responding_to, payload). -/
def encodeEnvelope (e : Envelope) : List Nat :=
  encodeU32 e.version ++ encodeU32 e.id ++ encodeOptU32 e.responding_to ++
    encodePayload e.payload

/-- Modelled from the spec: decoding of one Envelope from exactly one
frame body; trailing bytes are malformed input (§4.1 "decoding fails with a
ProtocolError for malformed ... input"). -/
def decodeEnvelope (bytes : List Nat) : Option Envelope := do
  let (v, r1) ← readU32 bytes
  let (i, r2) ← readU32 r1
  let (rt, r3) ← readOptU32 r2
  let (p, r4) ← decodePayload r3
  if r4 = [] then pure ⟨v, i, rt, p⟩ else none

/-- Well-formedness of an Envelope: every numeric field fits in a u32 and
every payload byte is a byte — exactly what the Rust types enforce. -/
def PayloadWF : Payload → Prop
  | .request kind data => kind < 4294967296 ∧ data.length < 4294967296 ∧ ∀ b ∈ data, b < 256
  | .response kind data => kind < 4294967296 ∧ data.length < 4294967296 ∧ ∀ b ∈ data, b < 256
  | .error kind message => kind < 4294967296 ∧ message.length < 4294967296 ∧ ∀ b ∈ message, b < 256

instance : DecidablePred PayloadWF := by
  intro p; cases p <;> (simp only [PayloadWF]; infer_instance)

def EnvelopeWF (e : Envelope) : Prop :=
  e.version < 4294967296 ∧ e.id < 4294967296 ∧
    (∀ n ∈ e.responding_to, n < 4294967296) ∧ PayloadWF e.payload

instance (e : Envelope) : Decidable (EnvelopeWF e) := by
  unfold EnvelopeWF; infer_instance

/-- Modelled from the spec: the framing encoder of §4.2/§6 — one frame is
`[fixed-width length][length bytes of encoded Envelope]`. -/
def frameEncode (e : Envelope) : List Nat :=
  encodeU32 (encodeEnvelope e).length ++ encodeEnvelope e

/-- Modelled from the spec: the framing decoder of §4.2 applied to one
complete frame: reads the fixed-width length prefix, rejects a declared
length exceeding `maxSize`, then decodes exactly that many body bytes. -/
def frameDecode (maxSize : Nat) (bytes : List Nat) : Option Envelope :=
  match readU32 bytes with
  | some (n, rest) =>
      if n ≤ maxSize then
        if rest.length = n then decodeEnvelope rest else none
      else none
  | none => none

/-- Value of a big-endian length prefix accumulated byte by byte. -/
def prefixValue (bytes : List Nat) : Nat :=
  bytes.foldl (fun acc b => acc * 256 + b) 0

/-- Modelled from the spec: state of the incremental framing decoder of
§4.2, which "incrementally buffers until a full frame is available".
`header` is accumulating the fixed-width length prefix; `body` is
accumulating a frame body of declared length `need`; `done` holds a decoded
Envelope; `failed` is the terminal ProtocolError state. -/
inductive DecoderState
  | header (buf : List Nat)
  | body (need : Nat) (buf : List Nat)
  | done (e : Envelope)
  | failed
deriving DecidableEq, Repr

/-- Bytes currently buffered for the frame being decoded. -/
def DecoderState.buffered : DecoderState → Nat
  | .header buf => buf.length
  | .body _ buf => buf.length
  | _ => 0

/-- Modelled from the spec: one byte of input to the incremental framing
decoder (§4.2). A declared length exceeding `maxSize` is rejected the
moment the length prefix is complete, before any body byte is buffered. -/
def feedByte (maxSize : Nat) : DecoderState → Nat → DecoderState
  | .header buf, b =>
      let buf' := buf ++ [b]
      if buf'.length < 4 then .header buf'
      else
        let n := prefixValue buf'
        if maxSize < n then .failed
        else if n = 0 then
          (match decodeEnvelope [] with
            | some e => .done e
            | none => .failed)
        else .body n []
  | .body need buf, b =>
      let buf' := buf ++ [b]
      if buf'.length < need then .body need buf'
      else
        match decodeEnvelope buf' with
        | some e => .done e
        | none => .failed
  | .failed, _ => .failed
  | .done e, _ => .done e

/-- Runs the incremental framing decoder over a byte sequence. -/
def feed (maxSize : Nat) (s : DecoderState) (bytes : List Nat) : DecoderState :=
  bytes.foldl (feedByte maxSize) s

/-- Modelled from the spec: the error taxonomy of §7 (`error.rs` is not
under `src/`). -/
inductive RpcError
  | ioError
  | protocolError
  | versionMismatch
  | requestTimeout
  | connectionLost
deriving DecidableEq, Repr

/-- Modelled from the spec: the Connection lifecycle states of §4.3. -/
inductive Lifecycle
  | connecting
  | connected
  | closing
  | closed
deriving DecidableEq, Repr

/-- Modelled from the spec: per-connection state of §3 — id, negotiated
protocol version, lifecycle, and the per-connection monotonic request-id
counter recommended in §9. -/
structure ConnState where
  id : Nat
  protocolVersion : Nat
  lifecycle : Lifecycle
  nextRequestId : Nat
deriving DecidableEq, Repr

/-- Modelled from the spec: Peer's single shared mutable structure (§5) —
the connection table and the PendingRequest map (as a list of
(connection_id, request_id) keys), plus the ConnectionId allocator. -/
structure PeerState where
  nextConnId : Nat
  conns : List ConnState
  pending : List (Nat × Nat)
deriving DecidableEq, Repr

/-- The Peer with no connections and no pending requests. -/
def initPeer : PeerState := ⟨0, [], []⟩

/-- Modelled from the spec: observable effects of Peer dispatch — a waiter
resolution (with a Response Envelope, ConnectionLost, or Timeout, §4.4),
a fan-out of an unsolicited Envelope (§4.5), or the synthetic disconnect
event delivered to subscribers (§4.5). -/
inductive Output
  | response (c reqId : Nat) (e : Envelope)
  | connectionLost (c reqId : Nat)
  | requestTimeout (c reqId : Nat)
  | fanout (c : Nat) (e : Envelope)
  | disconnected (c : Nat)
deriving DecidableEq, Repr

/-- Modelled from the spec: events driving one Peer (§4.4 public
operations, the read loop's inbound Envelopes, waiter timeouts, and
transport failure, which §7 says forces the connection Closed). -/
inductive Event
  | addConnection (peerVersion : Nat)
  | request (c : Nat)
  | recvEnvelope (c : Nat) (e : Envelope)
  | requestTimeout (c reqId : Nat)
  | disconnect (c : Nat)
  | transportError (c : Nat)
deriving DecidableEq, Repr

/-- Modelled from the spec: `add_connection` (§4.4) — the version
handshake compares the peer's advertised version with the compiled
`PROTOCOL_VERSION` for exact equality; on mismatch it fails with
VersionMismatch and registers nothing; on success it registers the
Connection in the Connected state with a fresh ConnectionId. -/
def add_connection (s : PeerState) (peerVersion : Nat) :
    Except RpcError (PeerState × Nat) :=
  if peerVersion = PROTOCOL_VERSION then
    .ok ({ s with
            nextConnId := s.nextConnId + 1,
            conns := s.conns ++ [⟨s.nextConnId, peerVersion, .connected, 0⟩] },
         s.nextConnId)
  else
    .error .versionMismatch

/-- Modelled from the spec: the lifecycle trajectory of a connection whose
handshake observes `peerVersion` (§4.3 state machine with §4.4: a rejected
handshake "never reaches Connected", and §8: "the connection reaches
Closed directly from Connecting"). -/
def handshakeLifecycle (peerVersion : Nat) : List Lifecycle :=
  if peerVersion = PROTOCOL_VERSION then [.connecting, .connected]
  else [.connecting, .closed]

/-- Modelled from the spec: driving a Connection to Closed (§4.3/§4.4) —
whether by `disconnect`, transport error, or remote close: deregister the
connection, fail every PendingRequest owned by it with ConnectionLost, and
notify subscribers of a disconnect event; a second call on an
already-absent id is a no-op. -/
def closeConnection (s : PeerState) (c : Nat) : PeerState × List Output :=
  if s.conns.any (fun conn => conn.id = c) then
    ({ s with
        conns := s.conns.filter (fun conn => conn.id ≠ c),
        pending := s.pending.filter (fun p => p.1 ≠ c) },
     (s.pending.filter (fun p => p.1 = c)).map
        (fun p => .connectionLost p.1 p.2) ++ [.disconnected c])
  else (s, [])

/-- Modelled from the spec: one step of the Peer hub (§4.4). `request`
allocates a fresh id from the connection's monotonic counter and registers
a PendingRequest. The dispatch algorithm for an inbound Envelope: when
`responding_to` is set, the PendingRequest keyed by (connection_id, that
id) is removed and its waiter resolved exactly once; with no live waiter
the Envelope is dropped, never fatal. When `responding_to` is absent the
Envelope is fanned out to the notification dispatcher. Timeout deregisters
the waiter locally. -/
def step (s : PeerState) : Event → PeerState × List Output
  | .addConnection v =>
      match add_connection s v with
      | .ok (s', _) => (s', [])
      | .error _ => (s, [])
  | .request c =>
      match s.conns.find? (fun conn => conn.id = c) with
      | some conn =>
          if conn.lifecycle = .connected then
            ({ s with
                conns := s.conns.map (fun k =>
                  if k.id = c then { k with nextRequestId := k.nextRequestId + 1 }
                  else k),
                pending := s.pending ++ [(c, conn.nextRequestId)] }, [])
          else (s, [])
      | none => (s, [])
  | .recvEnvelope c e =>
      if s.conns.any (fun conn => conn.id = c) then
        match e.responding_to with
        | some r =>
            if (c, r) ∈ s.pending then
              ({ s with pending := s.pending.filter (fun p => p ≠ (c, r)) },
               [.response c r e])
            else (s, [])
        | none => (s, [.fanout c e])
      else (s, [])
  | .requestTimeout c r =>
      if (c, r) ∈ s.pending then
        ({ s with pending := s.pending.filter (fun p => p ≠ (c, r)) },
         [.requestTimeout c r])
      else (s, [])
  | .disconnect c => closeConnection s c
  | .transportError c => closeConnection s c

/-- Runs the Peer over a list of events, concatenating the outputs. -/
def run (s : PeerState) : List Event → PeerState × List Output
  | [] => (s, [])
  | e :: es =>
      ((run (step s e).1 es).1, (step s e).2 ++ (run (step s e).1 es).2)

/-! ## LiveKit client adapter, embedded from
`src/crates/live_kit_client/src/live_kit_client.rs` -/

/-- A webrtc `VideoBuffer` trait object; its contents are irrelevant to
the non-macOS code path, which never inspects it. -/
structure VideoBuffer where
  raw : List Nat
deriving DecidableEq, Repr

/-- A webrtc `VideoFrame` as consumed by `play_remote_video_track`:
only its `buffer` field is used. -/
structure VideoFrame where
  buffer : VideoBuffer
deriving DecidableEq, Repr

/-- A `gpui::ScreenCaptureFrame`; opaque to the code under study. -/
structure ScreenCaptureFrame where
  raw : List Nat
deriving DecidableEq, Repr

/-- Embeds the `#[cfg(not(target_os = "macos"))]` variant of
`video_frame_buffer_from_webrtc` (lines 277-280): on every platform other
than macOS the body is literally `None`. -/
def video_frame_buffer_from_webrtc (_buffer : VideoBuffer) :
    Option ScreenCaptureFrame :=
  none

/-- Embeds `play_remote_video_track` (lines 252-257): the native video
stream (modelled as the list of frames it yields) filtered through
`video_frame_buffer_from_webrtc` by `filter_map`. -/
def play_remote_video_track (frames : List VideoFrame) :
    List ScreenCaptureFrame :=
  frames.filterMap (fun frame => video_frame_buffer_from_webrtc frame.buffer)

/-- Embeds the receive-task copy path of `play_remote_audio_track`
(lines 199-203): `copy_from_slice` into the shared buffer when
`frame.data.len() == buffer.len()`, otherwise zero every buffer sample.
Returns the new contents of the shared buffer. -/
def receiveCopy (frameData : List Int) (buffer : List Int) : List Int :=
  if frameData.length = buffer.length then frameData
  else buffer.map (fun _ => 0)

/-- Embeds the cpal output-callback copy path of `play_remote_audio_track`
(lines 227-234): `copy_from_slice` from the shared buffer into the output
slice when `data.len() == buffer.len()`, otherwise zero every output
sample. Returns the new contents of the output slice `data`. -/
def outputCopy (buffer : List Int) (data : List Int) : List Int :=
  if data.length = buffer.length then buffer
  else data.map (fun _ => 0)

/-! ## Theorems -/

/-- C9: on every platform other than macOS, `video_frame_buffer_from_webrtc`
returns `None` for every input buffer, and consequently the stream returned
by `play_remote_video_track` never yields any `ScreenCaptureFrame`. -/
theorem c9_non_macos_video_yields_nothing :
    (∀ b, video_frame_buffer_from_webrtc b = none) ∧
    (∀ frames, play_remote_video_track frames = []) := by
  refine ⟨fun _ => rfl, fun frames => ?_⟩
  simp [play_remote_video_track, video_frame_buffer_from_webrtc]

/-- C10: both copy paths of `play_remote_audio_track` are all-or-nothing:
the receive task copies a frame into the shared buffer only when the
lengths match and otherwise zero-fills the whole buffer, and the output
callback copies the shared buffer into the output only when the lengths
match and otherwise zero-fills every output sample — never a partial
copy. -/
theorem c10_audio_copy_all_or_nothing (frameData buffer data : List Int) :
    (frameData.length = buffer.length → receiveCopy frameData buffer = frameData) ∧
    (frameData.length ≠ buffer.length →
      receiveCopy frameData buffer = List.replicate buffer.length 0) ∧
    (data.length = buffer.length → outputCopy buffer data = buffer) ∧
    (data.length ≠ buffer.length →
      outputCopy buffer data = List.replicate data.length 0) := by
  refine ⟨fun h => ?_, fun h => ?_, fun h => ?_, fun h => ?_⟩ <;>
    simp [receiveCopy, outputCopy, h, List.map_const']

theorem c10_witness :
    receiveCopy [1, 2] [3, 4] = [1, 2] ∧
    receiveCopy [5] [3, 4] = List.replicate 2 0 ∧
    outputCopy [3, 4] [7, 8] = [3, 4] ∧
    outputCopy [3, 4] [9] = List.replicate 1 0 :=
  ⟨(c10_audio_copy_all_or_nothing [1, 2] [3, 4] [7, 8]).1 (by decide),
   (c10_audio_copy_all_or_nothing [5] [3, 4] [9]).2.1 (by decide),
   (c10_audio_copy_all_or_nothing [1, 2] [3, 4] [7, 8]).2.2.1 (by decide),
   (c10_audio_copy_all_or_nothing [5] [3, 4] [9]).2.2.2 (by decide)⟩

/-- C2: the compiled protocol version constant equals 68, and the
handshake in `add_connection` is an exact equality comparison against the
peer's advertised version: success exactly when the versions are equal,
and any inequality fails the connection with VersionMismatch before it is
registered (so before any application Envelope can be processed). -/
theorem c2_protocol_version_is_68_and_exact :
    PROTOCOL_VERSION = 68 ∧
    (∀ s v, (∃ r, add_connection s v = .ok r) ↔ v = PROTOCOL_VERSION) ∧
    (∀ s v, v ≠ PROTOCOL_VERSION →
      add_connection s v = .error .versionMismatch ∧
      step s (.addConnection v) = (s, [])) := by
  refine ⟨rfl, fun s v => ?_, fun s v hv => ?_⟩
  · constructor
    · rintro ⟨r, hr⟩
      by_contra hne
      simp [add_connection, hne] at hr
    · rintro rfl
      exact ⟨_, rfl⟩
  · constructor
    · simp [add_connection, hv]
    · simp [step, add_connection, hv]

theorem c2_witness :
    add_connection initPeer 67 = .error .versionMismatch ∧
    step initPeer (.addConnection 67) = (initPeer, []) :=
  c2_protocol_version_is_68_and_exact.2.2 initPeer 67 (by decide)

/-- C6: a connection whose handshake observes a mismatched protocol
version fails `add_connection` with VersionMismatch, its lifecycle goes
from Connecting directly to Closed and never reaches Connected, the
connection is never registered, and no Envelope from an unregistered
connection is ever dispatched. -/
theorem c6_version_mismatch_never_connected (v : Nat)
    (hv : v ≠ PROTOCOL_VERSION) :
    (∀ s, add_connection s v = .error .versionMismatch) ∧
    handshakeLifecycle v = [.connecting, .closed] ∧
    Lifecycle.connected ∉ handshakeLifecycle v ∧
    (∀ s, step s (.addConnection v) = (s, [])) ∧
    (∀ s c e, s.conns.any (fun conn => conn.id = c) = false →
      step s (.recvEnvelope c e) = (s, [])) := by
  refine ⟨fun s => ?_, ?_, ?_, fun s => ?_, fun s c e hreg => ?_⟩
  · simp [add_connection, hv]
  · simp [handshakeLifecycle, hv]
  · simp [handshakeLifecycle, hv]
  · simp [step, add_connection, hv]
  · simp [step, hreg]

theorem c6_witness :
    add_connection initPeer 5 = .error .versionMismatch ∧
    handshakeLifecycle 5 = [.connecting, .closed] ∧
    step initPeer (.recvEnvelope 0 ⟨68, 1, none, .request 0 []⟩) =
      (initPeer, []) := by
  have h := c6_version_mismatch_never_connected 5 (by decide)
  exact ⟨h.1 initPeer, h.2.1, h.2.2.2.2 initPeer 0 ⟨68, 1, none, .request 0 []⟩ (by decide)⟩

/-- C7: `disconnect` is idempotent — after one `disconnect` has removed
the connection, a second `disconnect` with the same id leaves the
connection table and the PendingRequest map unchanged and produces no
waiter resolutions or subscriber notifications. -/
theorem c7_disconnect_idempotent (s : PeerState) (c : Nat) :
    step (step s (.disconnect c)).1 (.disconnect c) =
      ((step s (.disconnect c)).1, []) := by
  simp only [step, closeConnection]
  by_cases h : s.conns.any (fun conn => conn.id = c) = true
  · simp only [h, if_true]
    have habs : (s.conns.filter (fun conn => conn.id ≠ c)).any
        (fun conn => conn.id = c) = false := by
      simp only [List.any_eq_false, List.mem_filter, decide_eq_true_eq]
      rintro conn ⟨-, hne⟩
      simpa using hne
    simp [habs]
  · simp only [Bool.not_eq_true] at h
    simp [h]

/-- C8: an inbound Response Envelope whose (connection_id, responding_to)
pair has no live PendingRequest is dropped without delivering it to any
waiter, without changing state, and without a fatal error; and after any
response to id `r` has been processed, a second response to the same id
reaches no waiter. -/
theorem c8_unmatched_response_dropped :
    (∀ s c r e, e.responding_to = some r → (c, r) ∉ s.pending →
      step s (.recvEnvelope c e) = (s, [])) ∧
    (∀ s c r e e', e.responding_to = some r → e'.responding_to = some r →
      step (step s (.recvEnvelope c e)).1 (.recvEnvelope c e') =
        ((step s (.recvEnvelope c e)).1, [])) := by
  have hdrop : ∀ s c r e, e.responding_to = some r → (c, r) ∉ s.pending →
      step s (.recvEnvelope c e) = (s, []) := by
    intro s c r e hrt hnp
    simp only [step, hrt]
    by_cases hreg : s.conns.any (fun conn => conn.id = c) = true
    · simp [hreg, hnp]
    · simp only [Bool.not_eq_true] at hreg
      simp [hreg]
  refine ⟨hdrop, fun s c r e e' hrt hrt' => ?_⟩
  by_cases hreg : s.conns.any (fun conn => conn.id = c) = true
  · have hout : (c, r) ∉ (step s (.recvEnvelope c e)).1.pending := by
      simp only [step, hrt]
      by_cases hp : (c, r) ∈ s.pending
      · simp only [hreg, if_true, hp, if_pos]
        intro hmem
        rcases List.mem_filter.mp hmem with ⟨-, hne⟩
        simp at hne
      · simp [hreg, hp]
    exact hdrop _ c r e' hrt' hout
  · simp only [Bool.not_eq_true] at hreg
    have h1 : step s (.recvEnvelope c e) = (s, []) := by simp [step, hreg]
    rw [h1]
    simp [step, hreg]

theorem c8_witness :
    step ⟨1, [⟨0, 68, .connected, 1⟩], []⟩
        (.recvEnvelope 0 ⟨68, 7, some 0, .response 1 []⟩) =
      (⟨1, [⟨0, 68, .connected, 1⟩], []⟩, []) :=
  c8_unmatched_response_dropped.1 ⟨1, [⟨0, 68, .connected, 1⟩], []⟩ 0 0
    ⟨68, 7, some 0, .response 1 []⟩ rfl (by decide)

/-- Modelled from the spec: the Peer-table invariants of §3 — connection
ids are unique in the table (c), ids come from the allocator, the
PendingRequest map has at most one entry per (connection_id, request_id),
and every PendingRequest belongs to a registered connection whose
monotonic request-id counter has moved past it. -/
def WF (s : PeerState) : Prop :=
  (s.conns.map ConnState.id).Nodup ∧
  (∀ conn ∈ s.conns, conn.id < s.nextConnId) ∧
  s.pending.Nodup ∧
  (∀ p ∈ s.pending, ∃ conn ∈ s.conns, conn.id = p.1 ∧ p.2 < conn.nextRequestId)

instance (s : PeerState) : Decidable (WF s) := by
  unfold WF; infer_instance

/-- The (connection_id, request_id) key of a ConnectionLost resolution. -/
def lostKey : Output → Option (Nat × Nat)
  | .connectionLost c r => some (c, r)
  | _ => none

/-- Fan-out of ConnectionLost outputs recovers exactly the pending keys. -/
theorem filterMap_lostKey_map (l : List (Nat × Nat)) :
    List.filterMap (lostKey ∘ fun p => Output.connectionLost p.1 p.2) l = l := by
  induction l with
  | nil => rfl
  | cons a t ih => simp [lostKey, Function.comp, ih]

/-- C5: disconnecting a connection with K outstanding PendingRequests
resolves exactly those K waiters with ConnectionLost — each exactly once
(the keys are exactly the pending entries for that connection, without
duplicates) — and leaves zero PendingRequest entries for that connection
id in Peer's table. -/
theorem c5_close_resolves_all_pending (s : PeerState) (c : Nat)
    (hwf : WF s) (hreg : s.conns.any (fun conn => conn.id = c) = true) :
    (step s (.disconnect c)).2.filterMap lostKey =
      s.pending.filter (fun p => p.1 = c) ∧
    ((step s (.disconnect c)).2.filterMap lostKey).Nodup ∧
    (step s (.disconnect c)).1.pending.filter (fun p => p.1 = c) = [] := by
  obtain ⟨-, -, hnd, -⟩ := hwf
  simp only [step, closeConnection, hreg, if_true]
  refine ⟨?_, ?_, ?_⟩
  · simp [List.filterMap_append, filterMap_lostKey_map, lostKey]
  · rw [List.filterMap_append, List.filterMap_map, filterMap_lostKey_map]
    simpa [lostKey] using hnd.filter (fun p => decide (p.1 = c))
  · simp only [List.filter_filter]
    rw [List.filter_eq_nil_iff]
    intro p hp
    simp

theorem c5_witness :
    (step ⟨1, [⟨0, 68, .connected, 2⟩], [(0, 0), (0, 1)]⟩
        (.disconnect 0)).2.filterMap lostKey =
      (⟨1, [⟨0, 68, .connected, 2⟩], [(0, 0), (0, 1)]⟩ : PeerState).pending.filter
        (fun p => p.1 = 0) ∧
    ((step ⟨1, [⟨0, 68, .connected, 2⟩], [(0, 0), (0, 1)]⟩
        (.disconnect 0)).2.filterMap lostKey).Nodup ∧
    (step ⟨1, [⟨0, 68, .connected, 2⟩], [(0, 0), (0, 1)]⟩
        (.disconnect 0)).1.pending.filter (fun p => p.1 = 0) = [] :=
  c5_close_resolves_all_pending ⟨1, [⟨0, 68, .connected, 2⟩], [(0, 0), (0, 1)]⟩ 0
    (by decide) (by decide)

/-- Reading back a 4-byte big-endian u32 recovers the value. -/
theorem readU32_encodeU32 (n : Nat) (h : n < 4294967296) (rest : List Nat) :
    readU32 (encodeU32 n ++ rest) = some (n, rest) := by
  simp only [encodeU32, List.cons_append, List.nil_append, readU32]
  congr 1
  congr 1
  omega

/-- Reading back an encoded optional u32 recovers the value. -/
theorem readOptU32_encodeOptU32 (o : Option Nat) (h : ∀ n ∈ o, n < 4294967296)
    (rest : List Nat) :
    readOptU32 (encodeOptU32 o ++ rest) = some (o, rest) := by
  cases o with
  | none => rfl
  | some n =>
      simp only [encodeOptU32, List.cons_append, readOptU32,
        readU32_encodeU32 n (h n rfl) rest]
      rfl

/-- Reading back `l.length` bytes in front of `rest` recovers `l`. -/
theorem readBytes_append (l rest : List Nat) :
    readBytes l.length (l ++ rest) = some (l, rest) := by
  simp [readBytes, List.take_left, List.drop_left]

/-- Decoding an encoded payload recovers it and leaves the rest. -/
theorem decodePayload_encodePayload (p : Payload) (h : PayloadWF p)
    (rest : List Nat) :
    decodePayload (encodePayload p ++ rest) = some (p, rest) := by
  cases p with
  | request kind data =>
      obtain ⟨hk, hl, -⟩ := h
      simp only [encodePayload, List.cons_append, decodePayload, List.append_assoc,
        readU32_encodeU32 kind hk, readU32_encodeU32 data.length hl,
        readBytes_append, Option.bind_eq_bind, Option.some_bind]
      rfl
  | response kind data =>
      obtain ⟨hk, hl, -⟩ := h
      simp only [encodePayload, List.cons_append, decodePayload, List.append_assoc,
        readU32_encodeU32 kind hk, readU32_encodeU32 data.length hl,
        readBytes_append, Option.bind_eq_bind, Option.some_bind]
      rfl
  | error kind message =>
      obtain ⟨hk, hl, -⟩ := h
      simp only [encodePayload, List.cons_append, decodePayload, List.append_assoc,
        readU32_encodeU32 kind hk, readU32_encodeU32 message.length hl,
        readBytes_append, Option.bind_eq_bind, Option.some_bind]
      rfl

/-- Decoding an encoded Envelope recovers it exactly. -/
theorem decodeEnvelope_encodeEnvelope (e : Envelope) (h : EnvelopeWF e) :
    decodeEnvelope (encodeEnvelope e) = some e := by
  obtain ⟨hv, hi, hrt, hp⟩ := h
  have hpay : encodePayload e.payload ++ ([] : List Nat) = encodePayload e.payload :=
    List.append_nil _
  simp only [decodeEnvelope, encodeEnvelope, List.append_assoc,
    readU32_encodeU32 e.version hv, readU32_encodeU32 e.id hi,
    readOptU32_encodeOptU32 e.responding_to hrt,
    Option.bind_eq_bind, Option.some_bind]
  rw [← hpay, decodePayload_encodePayload e.payload hp []]
  rfl

/-- C3: for every Envelope whose encoded size is within the maximum frame
size, decoding the framing encoder's output yields the Envelope back
unchanged: `decode(encode(e)) == e`. -/
theorem c3_frame_roundtrip (e : Envelope) (maxSize : Nat) (hwf : EnvelopeWF e)
    (hmax : maxSize < 4294967296)
    (hsize : (encodeEnvelope e).length ≤ maxSize) :
    frameDecode maxSize (frameEncode e) = some e := by
  have hlen : (encodeEnvelope e).length < 4294967296 := lt_of_le_of_lt hsize hmax
  simp only [frameDecode, frameEncode,
    readU32_encodeU32 (encodeEnvelope e).length hlen, hsize, if_true, if_pos rfl]
  exact decodeEnvelope_encodeEnvelope e hwf

theorem c3_witness :
    frameDecode 1024 (frameEncode ⟨68, 1, some 2, .request 3 [4, 5]⟩) =
      some ⟨68, 1, some 2, .request 3 [4, 5]⟩ :=
  c3_frame_roundtrip ⟨68, 1, some 2, .request 3 [4, 5]⟩ 1024
    (by decide) (by decide) (by decide)

/-- Invariant of the incremental framing decoder: the header buffer stays
under the fixed prefix width, and a body is only ever accumulated for a
declared length that passed the maximum-size check. -/
def DecoderInv (maxSize : Nat) : DecoderState → Prop
  | .header buf => buf.length < 4
  | .body need buf => need ≤ maxSize ∧ buf.length < need
  | _ => True

/-- One decoder step preserves the decoder invariant. -/
theorem feedByte_inv (maxSize : Nat) (s : DecoderState) (b : Nat)
    (h : DecoderInv maxSize s) : DecoderInv maxSize (feedByte maxSize s b) := by
  cases s with
  | header buf =>
      simp only [feedByte]
      split_ifs with h1 h2 h3
      · exact h1
      · trivial
      · split <;> trivial
      · refine ⟨by omega, ?_⟩
        simpa using Nat.pos_of_ne_zero h3
  | body need buf =>
      simp only [feedByte]
      split_ifs with h1
      · exact ⟨(by exact h.1 : need ≤ maxSize), h1⟩
      · split <;> trivial
  | done e => trivial
  | failed => trivial

/-- The decoder invariant holds after feeding any byte sequence. -/
theorem feed_inv (maxSize : Nat) (bytes : List Nat) :
    ∀ s, DecoderInv maxSize s → DecoderInv maxSize (feed maxSize s bytes) := by
  induction bytes with
  | nil => exact fun s h => h
  | cons b t ih => exact fun s h => ih _ (feedByte_inv maxSize s b h)

/-- The failed state absorbs all further input. -/
theorem feed_failed (maxSize : Nat) (bytes : List Nat) :
    feed maxSize .failed bytes = .failed := by
  induction bytes with
  | nil => rfl
  | cons b t ih => exact ih

/-- C4: a frame whose length prefix declares a length exceeding the
maximum frame size is rejected by the incremental framing decoder the
moment the prefix is complete — before a single payload byte is buffered,
whatever follows — and the decoder's buffered bytes never exceed the
maximum frame size plus the fixed-width prefix, regardless of the declared
length. -/
theorem c4_oversize_rejected_before_buffering :
    (∀ maxSize b0 b1 b2 b3 rest, maxSize < prefixValue [b0, b1, b2, b3] →
      feed maxSize (.header []) (b0 :: b1 :: b2 :: b3 :: rest) =
        DecoderState.failed) ∧
    (∀ maxSize bytes,
      (feed maxSize (.header []) bytes).buffered ≤ maxSize + 4) := by
  constructor
  · intro maxSize b0 b1 b2 b3 rest h
    have h4 : feed maxSize (.header []) (b0 :: b1 :: b2 :: b3 :: rest) =
        feed maxSize (feedByte maxSize (.header [b0, b1, b2]) b3) rest := rfl
    have hfb : feedByte maxSize (.header [b0, b1, b2]) b3 = .failed := by
      simp only [feedByte, List.cons_append, List.nil_append]
      rw [if_neg (by simp), if_pos h]
    rw [h4, hfb, feed_failed]
  · intro maxSize bytes
    have hinv := feed_inv maxSize bytes (.header []) (by simp [DecoderInv])
    cases hfeed : feed maxSize (.header []) bytes with
    | header buf =>
        rw [hfeed] at hinv
        simp only [DecoderInv] at hinv
        simp only [DecoderState.buffered]
        omega
    | body need buf =>
        rw [hfeed] at hinv
        simp only [DecoderInv] at hinv
        simp only [DecoderState.buffered]
        omega
    | done e => simp [DecoderState.buffered]
    | failed => simp [DecoderState.buffered]

theorem c4_witness :
    feed 1024 (.header []) (0 :: 16 :: 0 :: 0 :: [9, 9]) = DecoderState.failed :=
  c4_oversize_rejected_before_buffering.1 1024 0 16 0 0 [9, 9] (by decide)

/-- The waiter key of a resolution output; fan-out and disconnect
notifications carry no waiter key. -/
def outKey : Output → Option (Nat × Nat)
  | .response c r _ => some (c, r)
  | .connectionLost c r => some (c, r)
  | .requestTimeout c r => some (c, r)
  | _ => none

/-- A waiter key that has been spent: it is no longer pending, and no
present or future connection can mint it again (its connection id is
already allocated and, if still registered, its request-id counter has
moved past it). -/
def ResolvedKey (s : PeerState) (k : Nat × Nat) : Prop :=
  k ∉ s.pending ∧ k.1 < s.nextConnId ∧
    ∀ conn ∈ s.conns, conn.id = k.1 → k.2 < conn.nextRequestId

/-- Registered connections have pairwise-distinct ids (§3 invariant c). -/
theorem conns_id_unique {s : PeerState} (h : WF s) {c1 c2 : ConnState}
    (h1 : c1 ∈ s.conns) (h2 : c2 ∈ s.conns) (he : c1.id = c2.id) : c1 = c2 :=
  List.inj_on_of_nodup_map h.1 h1 h2 he

/-- Closing a connection preserves the Peer-table invariants. -/
theorem wf_closeConnection (s : PeerState) (c : Nat) (h : WF s) :
    WF (closeConnection s c).1 := by
  obtain ⟨hids, hlt, hnd, hpend⟩ := h
  unfold closeConnection
  split_ifs with hreg
  · refine ⟨?_, ?_, ?_, ?_⟩
    · exact ((List.filter_sublist _).map ConnState.id).nodup hids
    · intro conn hm
      exact hlt conn (List.mem_of_mem_filter hm)
    · exact hnd.filter _
    · intro p hp
      rcases List.mem_filter.mp hp with ⟨hpm, hpc⟩
      obtain ⟨conn, hcm, hcid, hclt⟩ := hpend p hpm
      refine ⟨conn, List.mem_filter.mpr ⟨hcm, ?_⟩, hcid, hclt⟩
      simp only [decide_eq_true_eq] at hpc ⊢
      omega
  · exact ⟨hids, hlt, hnd, hpend⟩

/-- Every Peer step preserves the Peer-table invariants. -/
theorem wf_step (s : PeerState) (e : Event) (h : WF s) : WF (step s e).1 := by
  obtain ⟨hids, hlt, hnd, hpend⟩ := h
  cases e with
  | addConnection v =>
      simp only [step, add_connection]
      split_ifs with hv
      · dsimp only
        refine ⟨?_, ?_, hnd, ?_⟩
        · rw [List.map_append, List.nodup_append]
          refine ⟨hids, List.nodup_singleton _, ?_⟩
          intro a ha hb
          simp only [List.map_cons, List.map_nil, List.mem_singleton] at hb
          rcases List.mem_map.mp ha with ⟨conn, hcm, rfl⟩
          have := hlt conn hcm
          omega
        · intro conn hm
          rcases List.mem_append.mp hm with hm | hm
          · have := hlt conn hm
            show conn.id < s.nextConnId + 1
            omega
          · simp only [List.mem_singleton] at hm
            subst hm
            show s.nextConnId < s.nextConnId + 1
            omega
        · intro p hp
          obtain ⟨conn, hcm, hcid, hclt⟩ := hpend p hp
          exact ⟨conn, List.mem_append_left _ hcm, hcid, hclt⟩
      · exact ⟨hids, hlt, hnd, hpend⟩
  | request c =>
      simp only [step]
      cases hfind : s.conns.find? (fun conn => conn.id = c) with
      | none => exact ⟨hids, hlt, hnd, hpend⟩
      | some conn =>
          have hcm : conn ∈ s.conns := List.mem_of_find?_eq_some hfind
          have hcid : conn.id = c := by
            have := List.find?_some hfind
            simpa using this
          dsimp only
          split_ifs with hlife
          · have hmapid : ∀ k : ConnState,
                (if k.id = c then { k with nextRequestId := k.nextRequestId + 1 }
                  else k).id = k.id := by
              intro k; split_ifs <;> rfl
            refine ⟨?_, ?_, ?_, ?_⟩
            · rw [List.map_map]
              have : (ConnState.id ∘ fun k =>
                  if k.id = c then { k with nextRequestId := k.nextRequestId + 1 }
                  else k) = ConnState.id := by
                funext k; exact hmapid k
              rw [this]; exact hids
            · intro k hk
              rcases List.mem_map.mp hk with ⟨k0, hk0, rfl⟩
              rw [hmapid k0]; exact hlt k0 hk0
            · rw [List.nodup_append]
              refine ⟨hnd, List.nodup_singleton _, ?_⟩
              intro p hp hq
              simp only [List.mem_singleton] at hq
              subst hq
              obtain ⟨conn', hcm', hcid', hclt'⟩ := hpend _ hp
              have : conn' = conn := conns_id_unique ⟨hids, hlt, hnd, hpend⟩ hcm' hcm
                (by rw [hcid', hcid])
              subst this
              omega
            · intro p hp
              rcases List.mem_append.mp hp with hp | hp
              · obtain ⟨conn', hcm', hcid', hclt'⟩ := hpend p hp
                refine ⟨if conn'.id = c then
                    { conn' with nextRequestId := conn'.nextRequestId + 1 }
                  else conn', List.mem_map_of_mem _ hcm', ?_, ?_⟩
                · rw [hmapid conn']; exact hcid'
                · split_ifs with hc
                  · show p.2 < conn'.nextRequestId + 1
                    omega
                  · exact hclt' 
              · simp only [List.mem_singleton] at hp
                subst hp
                refine ⟨{ conn with nextRequestId := conn.nextRequestId + 1 },
                  ?_, hcid, by simp⟩
                have : (if conn.id = c then
                    { conn with nextRequestId := conn.nextRequestId + 1 }
                  else conn) = { conn with nextRequestId := conn.nextRequestId + 1 } := by
                  rw [if_pos hcid]
                rw [← this]
                exact List.mem_map_of_mem _ hcm
          · exact ⟨hids, hlt, hnd, hpend⟩
  | recvEnvelope c e =>
      simp only [step]
      split_ifs with hreg
      · cases hrt : e.responding_to with
        | none => exact ⟨hids, hlt, hnd, hpend⟩
        | some r =>
            dsimp only
            split_ifs with hp
            · refine ⟨hids, hlt, hnd.filter _, ?_⟩
              intro p hpm
              exact hpend p (List.mem_of_mem_filter hpm)
            · exact ⟨hids, hlt, hnd, hpend⟩
      · exact ⟨hids, hlt, hnd, hpend⟩
  | requestTimeout c r =>
      simp only [step]
      split_ifs with hp
      · refine ⟨hids, hlt, hnd.filter _, ?_⟩
        intro p hpm
        exact hpend p (List.mem_of_mem_filter hpm)
      · exact ⟨hids, hlt, hnd, hpend⟩
  | disconnect c => exact wf_closeConnection s c ⟨hids, hlt, hnd, hpend⟩
  | transportError c => exact wf_closeConnection s c ⟨hids, hlt, hnd, hpend⟩

/-- ConnectionLost fan-out keys seen through `outKey`. -/
theorem filterMap_outKey_map (l : List (Nat × Nat)) :
    List.filterMap (outKey ∘ fun p => Output.connectionLost p.1 p.2) l = l := by
  induction l with
  | nil => rfl
  | cons a t ih => simp [outKey, Function.comp, ih]

/-- One Peer step resolves waiters only from the live PendingRequest
table, each emitted key at most once, every emitted key is spent in the
post-state, and spent keys stay spent. -/
theorem step_spent (s : PeerState) (ev : Event) (h : WF s) :
    ((step s ev).2.filterMap outKey).Nodup ∧
    (∀ k ∈ (step s ev).2.filterMap outKey,
      k ∈ s.pending ∧ ResolvedKey (step s ev).1 k) ∧
    (∀ k, ResolvedKey s k → ResolvedKey (step s ev).1 k) := by
  obtain ⟨hids, hlt, hnd, hpend⟩ := h
  cases ev with
  | addConnection v =>
      simp only [step, add_connection]
      split_ifs with hv
      · dsimp only
        refine ⟨by simp, by simp, ?_⟩
        rintro k ⟨hk1, hk2, hk3⟩
        refine ⟨hk1, by show k.1 < s.nextConnId + 1; omega, ?_⟩
        intro conn hm hid
        rcases List.mem_append.mp hm with hm | hm
        · exact hk3 conn hm hid
        · simp only [List.mem_singleton] at hm
          subst hm
          simp only at hid
          omega
      · exact ⟨by simp, by simp, fun k hk => hk⟩
  | request c =>
      simp only [step]
      cases hfind : s.conns.find? (fun conn => conn.id = c) with
      | none => exact ⟨by simp, by simp, fun k hk => hk⟩
      | some conn =>
          have hcm : conn ∈ s.conns := List.mem_of_find?_eq_some hfind
          have hcid : conn.id = c := by
            have := List.find?_some hfind
            simpa using this
          dsimp only
          split_ifs with hlife
          · refine ⟨by simp, by simp, ?_⟩
            rintro k ⟨hk1, hk2, hk3⟩
            refine ⟨?_, hk2, ?_⟩
            · intro hmem
              rcases List.mem_append.mp hmem with hmem | hmem
              · exact hk1 hmem
              · simp only [List.mem_singleton] at hmem
                subst hmem
                have hlt2 : conn.nextRequestId < conn.nextRequestId :=
                  hk3 conn hcm hcid
                omega
            · intro conn2 hm2 hid2
              rcases List.mem_map.mp hm2 with ⟨k0, hk0, rfl⟩
              by_cases hc : k0.id = c
              · rw [if_pos hc] at hid2 ⊢
                show k.2 < k0.nextRequestId + 1
                have hid0 : k0.id = k.1 := hid2
                have := hk3 k0 hk0 hid0
                omega
              · rw [if_neg hc] at hid2 ⊢
                exact hk3 k0 hk0 hid2
          · exact ⟨by simp, by simp, fun k hk => hk⟩
  | recvEnvelope c e =>
      simp only [step]
      split_ifs with hreg
      · cases hrt : e.responding_to with
        | none => exact ⟨by simp [outKey], by simp [outKey], fun k hk => hk⟩
        | some r =>
            dsimp only
            split_ifs with hp
            · refine ⟨by simp [outKey], ?_, ?_⟩
              · intro k hk
                simp only [List.filterMap_cons, outKey, List.filterMap_nil] at hk
                simp only [List.mem_singleton] at hk
                subst hk
                refine ⟨hp, ?_, ?_, ?_⟩
                · intro hmem
                  rcases List.mem_filter.mp hmem with ⟨-, hne⟩
                  simp at hne
                · obtain ⟨conn, hcm, hcid, -⟩ := hpend _ hp
                  have := hlt conn hcm
                  simp only
                  omega
                · intro conn2 hm2 hid2
                  obtain ⟨conn, hcm, hcid, hclt⟩ := hpend _ hp
                  have : conn2 = conn := conns_id_unique ⟨hids, hlt, hnd, hpend⟩
                    hm2 hcm (by rw [hid2, hcid])
                  subst this
                  exact hclt
              · rintro k ⟨hk1, hk2, hk3⟩
                refine ⟨?_, hk2, hk3⟩
                intro hmem
                exact hk1 (List.mem_of_mem_filter hmem)
            · exact ⟨by simp, by simp, fun k hk => hk⟩
      · exact ⟨by simp, by simp, fun k hk => hk⟩
  | requestTimeout c r =>
      simp only [step]
      split_ifs with hp
      · refine ⟨by simp [outKey], ?_, ?_⟩
        · intro k hk
          simp only [List.filterMap_cons, outKey, List.filterMap_nil] at hk
          simp only [List.mem_singleton] at hk
          subst hk
          refine ⟨hp, ?_, ?_, ?_⟩
          · intro hmem
            rcases List.mem_filter.mp hmem with ⟨-, hne⟩
            simp at hne
          · obtain ⟨conn, hcm, hcid, -⟩ := hpend _ hp
            have := hlt conn hcm
            simp only
            omega
          · intro conn2 hm2 hid2
            obtain ⟨conn, hcm, hcid, hclt⟩ := hpend _ hp
            have : conn2 = conn := conns_id_unique ⟨hids, hlt, hnd, hpend⟩
              hm2 hcm (by rw [hid2, hcid])
            subst this
            exact hclt
        · rintro k ⟨hk1, hk2, hk3⟩
          refine ⟨?_, hk2, hk3⟩
          intro hmem
          exact hk1 (List.mem_of_mem_filter hmem)
      · exact ⟨by simp, by simp, fun k hk => hk⟩
  | disconnect c =>
      simp only [step, closeConnection]
      split_ifs with hreg
      · dsimp only
        rw [List.filterMap_append, List.filterMap_map, filterMap_outKey_map]
        refine ⟨?_, ?_, ?_⟩
        · simpa [outKey] using hnd.filter (fun p => decide (p.1 = c))
        · intro k hk
          simp only [List.mem_append] at hk
          rcases hk with hk | hk
          · rcases List.mem_filter.mp hk with ⟨hkm, hkc⟩
            simp only [decide_eq_true_eq] at hkc
            refine ⟨hkm, ?_, ?_, ?_⟩
            · intro hmem
              rcases List.mem_filter.mp hmem with ⟨-, hne⟩
              simp only [decide_eq_true_eq] at hne
              omega
            · obtain ⟨conn, hcm, hcid, -⟩ := hpend _ hkm
              have := hlt conn hcm
              simp only
              omega
            · intro conn2 hm2 hid2
              rcases List.mem_filter.mp hm2 with ⟨-, hne⟩
              simp only [decide_eq_true_eq] at hne
              omega
          · simp [outKey] at hk
        · rintro k ⟨hk1, hk2, hk3⟩
          refine ⟨?_, hk2, ?_⟩
          · intro hmem
            exact hk1 (List.mem_of_mem_filter hmem)
          · intro conn2 hm2 hid2
            exact hk3 conn2 (List.mem_of_mem_filter hm2) hid2
      · exact ⟨by simp, by simp, fun k hk => hk⟩
  | transportError c =>
      simp only [step, closeConnection]
      split_ifs with hreg
      · dsimp only
        rw [List.filterMap_append, List.filterMap_map, filterMap_outKey_map]
        refine ⟨?_, ?_, ?_⟩
        · simpa [outKey] using hnd.filter (fun p => decide (p.1 = c))
        · intro k hk
          simp only [List.mem_append] at hk
          rcases hk with hk | hk
          · rcases List.mem_filter.mp hk with ⟨hkm, hkc⟩
            simp only [decide_eq_true_eq] at hkc
            refine ⟨hkm, ?_, ?_, ?_⟩
            · intro hmem
              rcases List.mem_filter.mp hmem with ⟨-, hne⟩
              simp only [decide_eq_true_eq] at hne
              omega
            · obtain ⟨conn, hcm, hcid, -⟩ := hpend _ hkm
              have := hlt conn hcm
              simp only
              omega
            · intro conn2 hm2 hid2
              rcases List.mem_filter.mp hm2 with ⟨-, hne⟩
              simp only [decide_eq_true_eq] at hne
              omega
          · simp [outKey] at hk
        · rintro k ⟨hk1, hk2, hk3⟩
          refine ⟨?_, hk2, ?_⟩
          · intro hmem
            exact hk1 (List.mem_of_mem_filter hmem)
          · intro conn2 hm2 hid2
            exact hk3 conn2 (List.mem_of_mem_filter hm2) hid2
      · exact ⟨by simp, by simp, fun k hk => hk⟩

/-- A waiter is only ever resolved with a Response Envelope whose
`responding_to` equals that waiter's request id. -/
theorem step_response_matches (s : PeerState) (ev : Event) (c r : Nat)
    (e : Envelope) (hmem : Output.response c r e ∈ (step s ev).2) :
    e.responding_to = some r := by
  cases ev with
  | addConnection v =>
      simp only [step, add_connection] at hmem
      split_ifs at hmem <;> simp at hmem
  | request c' =>
      simp only [step] at hmem
      cases hfind : s.conns.find? (fun conn => conn.id = c') with
      | none => rw [hfind] at hmem; simp at hmem
      | some conn =>
          rw [hfind] at hmem
          dsimp only at hmem
          split_ifs at hmem <;> simp at hmem
  | recvEnvelope c' e' =>
      simp only [step] at hmem
      split_ifs at hmem with hreg
      · cases hrt : e'.responding_to with
        | none =>
            rw [hrt] at hmem
            dsimp only at hmem
            simp at hmem
        | some r' =>
            rw [hrt] at hmem
            dsimp only at hmem
            split_ifs at hmem with hp
            · simp only [List.mem_singleton, Output.response.injEq] at hmem
              obtain ⟨rfl, rfl, rfl⟩ := hmem
              exact hrt
            · simp at hmem
      · simp at hmem
  | requestTimeout c' r' =>
      simp only [step] at hmem
      split_ifs at hmem <;> simp at hmem
  | disconnect c' =>
      simp only [step, closeConnection] at hmem
      split_ifs at hmem with hreg
      · dsimp only at hmem
        rcases List.mem_append.mp hmem with hmem | hmem
        · rcases List.mem_map.mp hmem with ⟨p, -, heq1⟩
          exact absurd heq1 (by simp)
        · simp at hmem
      · simp at hmem
  | transportError c' =>
      simp only [step, closeConnection] at hmem
      split_ifs at hmem with hreg
      · dsimp only at hmem
        rcases List.mem_append.mp hmem with hmem | hmem
        · rcases List.mem_map.mp hmem with ⟨p, -, heq2⟩
          exact absurd heq2 (by simp)
        · simp at hmem
      · simp at hmem

/-- Over a whole run, waiter keys are resolved pairwise-distinctly, and a
key spent before the run is never resolved during it. -/
theorem run_spent (events : List Event) :
    ∀ s, WF s →
      ((run s events).2.filterMap outKey).Nodup ∧
      ∀ k, ResolvedKey s k → k ∉ (run s events).2.filterMap outKey := by
  induction events with
  | nil => exact fun s h => ⟨List.nodup_nil, by simp [run]⟩
  | cons ev t ih =>
      intro s h
      obtain ⟨hnodup, hmem, hres⟩ := step_spent s ev h
      have hwf' := wf_step s ev h
      obtain ⟨ihnd, ihres⟩ := ih _ hwf'
      constructor
      · rw [show (run s (ev :: t)).2 =
            (step s ev).2 ++ (run (step s ev).1 t).2 from rfl]
        rw [List.filterMap_append, List.nodup_append]
        exact ⟨hnodup, ihnd, fun k hk1 hk2 => ihres k (hmem k hk1).2 hk2⟩
      · intro k hrk
        rw [show (run s (ev :: t)).2 =
            (step s ev).2 ++ (run (step s ev).1 t).2 from rfl]
        rw [List.filterMap_append, List.mem_append]
        rintro (hk | hk)
        · exact hrk.1 (hmem k hk).1
        · exact ihres k (hres k hrk) hk

/-- Over a whole run, every Response resolution matches its waiter's id. -/
theorem run_response_matches (events : List Event) :
    ∀ s c r e, Output.response c r e ∈ (run s events).2 →
      e.responding_to = some r := by
  induction events with
  | nil => intro s c r e hm; simp [run] at hm
  | cons ev t ih =>
      intro s c r e hm
      rw [show (run s (ev :: t)).2 =
          (step s ev).2 ++ (run (step s ev).1 t).2 from rfl] at hm
      rcases List.mem_append.mp hm with hm | hm
      · exact step_response_matches s ev c r e hm
      · exact ih _ c r e hm

/-- C1: over any event sequence from the fresh Peer, every waiter
resolution carrying a Response Envelope carries exactly the Envelope whose
`responding_to` equals that waiter's allocated request id (never a
mismatched id's payload, whatever the arrival order), and no waiter key is
resolved more than once — each request resolves with its own matching
Response, or with ConnectionLost, or with Timeout. -/
theorem c1_response_correlation (events : List Event) :
    (∀ c r e, Output.response c r e ∈ (run initPeer events).2 →
      e.responding_to = some r) ∧
    ((run initPeer events).2.filterMap outKey).Nodup := by
  refine ⟨fun c r e hm => run_response_matches events initPeer c r e hm, ?_⟩
  exact (run_spent events initPeer (by simp [WF, initPeer])).1

theorem c1_witness :
    Output.response 0 1 ⟨68, 9, some 1, .response 1 []⟩ ∈
      (run initPeer [.addConnection 68, .request 0, .request 0,
        .recvEnvelope 0 ⟨68, 9, some 1, .response 1 []⟩,
        .recvEnvelope 0 ⟨68, 10, some 0, .response 2 []⟩]).2 ∧
    (⟨68, 9, some 1, .response 1 []⟩ : Envelope).responding_to = some 1 ∧
    ((run initPeer [.addConnection 68, .request 0, .request 0,
        .recvEnvelope 0 ⟨68, 9, some 1, .response 1 []⟩,
        .recvEnvelope 0 ⟨68, 10, some 0, .response 2 []⟩]).2.filterMap
      outKey).Nodup := by
  refine ⟨by decide, ?_, (c1_response_correlation [.addConnection 68,
    .request 0, .request 0, .recvEnvelope 0 ⟨68, 9, some 1, .response 1 []⟩,
    .recvEnvelope 0 ⟨68, 10, some 0, .response 2 []⟩]).2⟩
  exact (c1_response_correlation [.addConnection 68, .request 0, .request 0,
    .recvEnvelope 0 ⟨68, 9, some 1, .response 1 []⟩,
    .recvEnvelope 0 ⟨68, 10, some 0, .response 2 []⟩]).1 0 1
    ⟨68, 9, some 1, .response 1 []⟩ (by decide)
